import Mathlib

/-!
Verification of the publication fetch-cache-render scripts of the
`echaussidon/portfolio` repository.

The repository contains several near-duplicate browser scripts that fetch a
publication list from the INSPIRE-HEP API, cache it in `localStorage`, and
render a list plus a statistics panel.  This file gives a shallow embedding
of the data model and of the functions the specification's claims are about:

* the h-index computation `calculateHIndex` (inline script `Publications.js`);
* the author-string formatting `formatAuthors`;
* the per-item link construction of the three list-rendering variants;
* the title filter of the inline `renderPublications`;
* the `localStorage` caches (`publications-cache.js` module, inline copy,
  `PublicationsFetcher.saveToCache`, `InspirePublications.saveCachedData`),
  over a verified model of the JSON encoder/parser pair used by the code;
* the initialization cycles of `PublicationsFetcher` (Version2),
  `InspirePublications` and `PublicationsDisplay`, as event traces;
* the per-identifier citation cache `getCached` of `selected-citations.js`.
-/

namespace Portfolio

/-! ## Data model

The publication record shape used by every script, following the fields of
the INSPIRE-HEP API response that the code actually reads
(`hits.hits[].metadata...`).  Absent JSON fields are modelled by `Option`
or by an empty list. -/

/-- One entry of `metadata.titles`. -/
structure Title where
  title : String
deriving DecidableEq, Repr

/-- One entry of `metadata.authors`; the code reads `author.full_name`. -/
structure AuthorRec where
  full_name : String
deriving DecidableEq, Repr

/-- One entry of `metadata.arxiv_eprints`; the code reads `.value`. -/
structure ArxivEprint where
  value : String
deriving DecidableEq, Repr

/-- One entry of `metadata.dois`; the code reads `.value`. -/
structure Doi where
  value : String
deriving DecidableEq, Repr

/-- One entry of `metadata.publication_info`. -/
structure PublicationInfo where
  journal_title : Option String := none
  journal_volume : Option String := none
  page_start : Option String := none
  year : Option String := none
deriving DecidableEq, Repr

/-- The `metadata` object of one record of `hits.hits`. -/
structure Metadata where
  titles : List Title := []
  authors : List AuthorRec := []
  publication_info : List PublicationInfo := []
  citation_count : Option Nat := none
  arxiv_eprints : List ArxivEprint := []
  dois : List Doi := []
deriving DecidableEq, Repr

/-- One record of `hits.hits`: an id and its metadata. -/
structure Publication where
  id : String
  metadata : Metadata
deriving DecidableEq, Repr

/-- The `metadata.citation_summary` object of the author resource. -/
structure CitationSummary where
  citation_count : Nat
  h_index : Nat
deriving DecidableEq, Repr

/-- The displayed statistics panel: publication count, total citations,
h-index, in the order the three stat boxes are rendered. -/
structure StatsPanel where
  publications : Nat
  citations : Nat
  hIndex : Nat
deriving DecidableEq, Repr

/-! ## The h-index computation

`calculateHIndex(papers)` from the inline `Publications.js` script:
it returns `0` for a missing or empty array, otherwise extracts
`paper.metadata.citation_count || 0`, sorts descending with
`.sort((a, b) => b - a)`, and scans: `h = i + 1` while
`citationCounts[i] >= i + 1`, breaking at the first failure. -/

/-- The citation count the scripts read off a record:
`paper.metadata.citation_count || 0`. -/
def citationOf (p : Publication) : Nat :=
  p.metadata.citation_count.getD 0

/-- The descending numeric sort `.sort((a, b) => b - a)` applied to the
extracted citation counts. -/
def sortDesc (l : List Nat) : List Nat :=
  List.insertionSort (· ≥ ·) l

/-- The scanning loop of `calculateHIndex`.  `hLoop counts i` is the value
of `h` after the loop has run from index `i` with all earlier indices having
passed the test: on `counts[i] >= i + 1` it sets `h = i + 1` and continues,
otherwise it breaks, leaving `h = i`. -/
def hLoop : List Nat → Nat → Nat
  | [], i => i
  | c :: rest, i => if i + 1 ≤ c then hLoop rest (i + 1) else i

/-- `calculateHIndex` of the inline `Publications.js` script. -/
def calculateHIndex (papers : List Publication) : Nat :=
  if papers = [] then 0
  else hLoop (sortDesc (papers.map citationOf)) 0

/-- The three-record hardcoded fallback dataset shared by
`InspirePublications.loadFallbackData` and
`PublicationsDisplay.displayFallbackData` (citation counts 13, 5, 2). -/
def fallbackPublications : List Publication :=
  [ { id := "2105642",
      metadata :=
        { titles := [⟨"Euclid preparation. XVII. Cosmic Dawn Survey: Spitzer Space Telescope observations of the Euclid deep fields and calibration fields"⟩],
          authors := [⟨"Moneti, A."⟩, ⟨"Echaussidon, E."⟩, ⟨"et al."⟩],
          publication_info := [{ journal_title := some "Astron.Astrophys.",
                                 year := some "2022",
                                 journal_volume := some "658",
                                 page_start := some "A126" }],
          citation_count := some 13,
          arxiv_eprints := [⟨"2110.13923"⟩],
          dois := [⟨"10.1051/0004-6361/202141606"⟩] } },
    { id := "1891170",
      metadata :=
        { titles := [⟨"Euclid preparation: XII. Optimizing the photometric sample of the Euclid survey for galaxy clustering and galaxy-galaxy lensing analyses"⟩],
          authors := [⟨"Pocino, A."⟩, ⟨"Echaussidon, E."⟩, ⟨"et al."⟩],
          publication_info := [{ journal_title := some "Astron.Astrophys.",
                                 year := some "2022",
                                 journal_volume := some "661",
                                 page_start := some "A56" }],
          citation_count := some 5,
          arxiv_eprints := [⟨"2110.11416"⟩],
          dois := [⟨"10.1051/0004-6361/202141648"⟩] } },
    { id := "2133490",
      metadata :=
        { titles := [⟨"Euclid preparation: XXV. The Euclid Morphology Challenge -- Towards model-fitting photometry for billions of galaxies"⟩],
          authors := [⟨"Bretonniere, H."⟩, ⟨"Echaussidon, E."⟩, ⟨"et al."⟩],
          publication_info := [{ journal_title := some "Astron.Astrophys.",
                                 year := some "2022",
                                 journal_volume := some "664",
                                 page_start := some "A92" }],
          citation_count := some 2,
          arxiv_eprints := [⟨"2204.06540"⟩],
          dois := [⟨"10.1051/0004-6361/202142969"⟩] } } ]

/-- The `citation_summary` of the fallback author dataset
(`citation_count: 20, h_index: 2`). -/
def fallbackSummary : CitationSummary := ⟨20, 2⟩

/-! ## Author-string formatting

`formatAuthors(authors)` of the inline `Publications.js` script: empty or
missing list gives the empty string; otherwise the first five entries are
kept (`authors.slice(0, 5)`), each name is wrapped in `<strong>` when it
contains `'Chaussidon'`, the names are joined with `', '`, and `' et al.'`
is appended exactly when the original list has more than five entries. -/

/-- Boolean test that `pat` is a leading segment of the second list,
character by character. -/
def isLeading : List Char → List Char → Bool
  | [], _ => true
  | _ :: _, [] => false
  | a :: as, b :: bs => a = b && isLeading as bs

/-- Boolean substring test over character lists; models
`String.prototype.includes`. -/
def containsChars (pat : List Char) : List Char → Bool
  | [] => isLeading pat []
  | c :: rest => isLeading pat (c :: rest) || containsChars pat rest

/-- `name.includes('Chaussidon')` test of `formatAuthors`. -/
def stringIncludes (s pat : String) : Bool :=
  containsChars pat.data s.data

/-- Per-name mapping of `formatAuthors`: wrap a name containing
`'Chaussidon'` in a `<strong>` tag, otherwise keep it. -/
def highlightAuthor (name : String) : String :=
  if stringIncludes name "Chaussidon" then "<strong>" ++ name ++ "</strong>"
  else name

/-- `formatAuthors` of the inline `Publications.js` script. -/
def formatAuthors (authors : List AuthorRec) : String :=
  if authors.length = 0 then ""
  else
    let names := (authors.take 5).map (fun a => highlightAuthor a.full_name)
    let authorString := String.intercalate ", " names
    if 5 < authors.length then authorString ++ " et al." else authorString

/-! ## Per-item outbound links

Two link-construction shapes exist.  The three list variants
(`PublicationsDisplay.renderPublications`, `PublicationsFetcher`'s and
`InspirePublications`'s `renderPublications`) push an arXiv link when
`metadata.arxiv_eprints[0]` exists, a DOI link when `metadata.dois[0]`
exists, and always an INSPIRE link.  The inline `createPublicationItem`
links the title to INSPIRE, shows the arXiv button when the first arXiv id
is a truthy (non-empty) string, and attaches the DOI link to the journal
name only when both the DOI value and the journal title are truthy. -/

/-- An outbound link of a rendered publication item. -/
inductive PubLink where
  | arxiv (id : String)
  | doi (value : String)
  | inspire (recid : String)
deriving DecidableEq, Repr

/-- Links of the three list-rendering variants, in render order. -/
def listVariantLinks (p : Publication) : List PubLink :=
  (match p.metadata.arxiv_eprints.head? with
   | some e => [PubLink.arxiv e.value]
   | none => []) ++
  (match p.metadata.dois.head? with
   | some d => [PubLink.doi d.value]
   | none => []) ++
  [PubLink.inspire p.id]

/-- Truthiness of the `journal` variable of `createPublicationItem`:
`publication_info[0].journal_title` exists and is a non-empty string. -/
def inlineJournalTruthy (p : Publication) : Bool :=
  match (p.metadata.publication_info.head?).bind PublicationInfo.journal_title with
  | some j => j ≠ ""
  | none => false

/-- Links of the inline `createPublicationItem`, in render order: the title
link to INSPIRE, the journal-attached DOI link (`if (doi && journal)`), and
the arXiv button (`if (arxiv)`). -/
def createItemLinks (p : Publication) : List PubLink :=
  [PubLink.inspire p.id] ++
  (match p.metadata.dois.head? with
   | some d => if d.value ≠ "" && inlineJournalTruthy p then [PubLink.doi d.value] else []
   | none => []) ++
  (match p.metadata.arxiv_eprints.head? with
   | some e => if e.value ≠ "" then [PubLink.arxiv e.value] else []
   | none => [])

/-- Recognizer for arXiv links. -/
def PubLink.isArxiv : PubLink → Bool
  | .arxiv _ => true
  | _ => false

/-- Recognizer for DOI links. -/
def PubLink.isDoi : PubLink → Bool
  | .doi _ => true
  | _ => false

/-- Truthiness of the `arxiv` variable of `createPublicationItem`: a first
arXiv eprint exists and its value is a non-empty string. -/
def arxivTruthy (p : Publication) : Bool :=
  match p.metadata.arxiv_eprints.head? with
  | some e => e.value ≠ ""
  | none => false

/-- Truthiness of the `doi` variable of `createPublicationItem`: a first
DOI exists and its value is a non-empty string. -/
def doiTruthy (p : Publication) : Bool :=
  match p.metadata.dois.head? with
  | some d => d.value ≠ ""
  | none => false

/-- A record carrying a DOI but no publication info (hence no journal
title) and no arXiv eprint. -/
def doiNoJournalPub : Publication :=
  { id := "9999",
    metadata := { dois := [⟨"10.1051/0004-6361/202142969"⟩] } }

/-- A record with neither an arXiv eprint nor a DOI. -/
def bareLinksPub : Publication :=
  { id := "1700000", metadata := {} }

/-- A six-name author list (more than the five-name display limit). -/
def sixAuthors : List AuthorRec :=
  [⟨"Moneti, A."⟩, ⟨"Pocino, A."⟩, ⟨"Bretonniere, H."⟩,
   ⟨"Aubert, M."⟩, ⟨"Bault, A."⟩, ⟨"Chaussidon, E."⟩]

/-! ## Filtering and statistics of the inline `renderPublications` -/

/-- The title excluded by the inline `renderPublications` filter. -/
def excludedTitle : String :=
  "Studying inflation with quasars from the DESI spectroscopic survey"

/-- Model of `String.prototype.trim`: strip leading and trailing
whitespace. -/
def trimString (s : String) : String :=
  ⟨((s.data.dropWhile Char.isWhitespace).reverse.dropWhile Char.isWhitespace).reverse⟩

/-- The guarded first-title read of the filter:
`paper.metadata && paper.metadata.titles && paper.metadata.titles[0] ?
paper.metadata.titles[0].title : ''`. -/
def firstTitle (p : Publication) : String :=
  ((p.metadata.titles.head?).map Title.title).getD ""

/-- The `filteredPapers` list of the inline `renderPublications`: keep a
paper iff its trimmed first title differs from the excluded title. -/
def filterPapers (papers : List Publication) : List Publication :=
  papers.filter (fun p => trimString (firstTitle p) ≠ excludedTitle)

/-- The `totalCitations` accumulation of the inline `renderPublications`:
reset to `0`, then `totalCitations += paper.metadata.citation_count || 0`
for each rendered paper. -/
def inlineTotalCitations (papers : List Publication) : Nat :=
  papers.foldl (fun acc p => acc + citationOf p) 0

/-- The statistics panel rendered by the inline `renderPublications`:
count and citation total over the filtered list, h-index by
`calculateHIndex`. -/
def inlineStats (papers : List Publication) : StatsPanel :=
  ⟨(filterPapers papers).length,
   inlineTotalCitations (filterPapers papers),
   calculateHIndex (filterPapers papers)⟩

/-- The combined in-memory record of `PublicationsFetcher.fetchData`:
`{ publications, citationSummary, metadata }` (the parts read by its
`renderStatistics`). -/
structure CombinedData where
  publications : List Publication
  citationSummary : Option CitationSummary
deriving DecidableEq, Repr

/-- `PublicationsFetcher.renderStatistics` statistics:
`totalPubs = cache.publications.length`,
`citations = stats ? stats.citation_count : 0`,
`hIndex = stats ? stats.h_index : 0`. -/
def fetcherStats (c : CombinedData) : StatsPanel :=
  ⟨c.publications.length,
   match c.citationSummary with
   | some s => s.citation_count
   | none => 0,
   match c.citationSummary with
   | some s => s.h_index
   | none => 0⟩

/-- `InspirePublications.renderStatistics` statistics:
`totalPubs = publications.length`,
`citations = (citation_summary || {}).citation_count || 0`, and likewise
for the h-index. -/
def inspireStats (pubs : List Publication) (summary : Option CitationSummary) :
    StatsPanel :=
  ⟨pubs.length,
   (summary.map CitationSummary.citation_count).getD 0,
   (summary.map CitationSummary.h_index).getD 0⟩

/-- `ONE_DAY = 24 * 60 * 60 * 1000` milliseconds. -/
def ONE_DAY : Int := 24 * 60 * 60 * 1000

/-- One entry of the `selected_citations_cache_v1` object:
`{ value, ts }`, where the timestamp may be missing (`e.ts || 0`). -/
structure SelEntry where
  value : Nat
  ts : Option Int := none
deriving DecidableEq, Repr

/-- `getCached(key)` of `selected-citations.js`: `null` when the entry is
absent, `null` when `Date.now() - (e.ts || 0) > ONE_DAY`, else the stored
value. -/
def getCached (now : Int) (cache : String → Option SelEntry) (key : String) :
    Option Nat :=
  match cache key with
  | none => none
  | some e => if ONE_DAY < now - e.ts.getD 0 then none else some e.value

/-- A one-entry citation cache whose single entry has no timestamp. -/
def selCacheOne : String → Option SelEntry :=
  fun k => if k = "arxiv:2110.13923" then some { value := 13 } else none

/-! ## A model of the JSON codec

The scripts persist cache entries with `JSON.stringify` and read them back
with `JSON.parse`, catching parse failures and treating them as cache
misses.  The browser builtins are modelled by an executable encoder/parser
pair over a JSON value type covering the values the scripts store; the
parser is proved to be a left inverse of the encoder, so a cache read
genuinely reconstructs the stored object from its character-level
encoding.  String escaping covers the quote and backslash characters (the
values the scripts store contain no control characters). -/

/-- JSON values, as produced and consumed by the scripts. -/
inductive Json where
  | jnull : Json
  | jbool (b : Bool) : Json
  | jnum (n : Nat) : Json
  | jstr (s : String) : Json
  | jarr (elems : List Json) : Json
  | jobj (fields : List (String × Json)) : Json

/-- Escape quote and backslash characters, as `JSON.stringify` does for
the strings at hand. -/
def escapeChars : List Char → List Char
  | [] => []
  | c :: rest =>
    if c = '"' ∨ c = '\\' then '\\' :: c :: escapeChars rest
    else c :: escapeChars rest

/-- Decimal digits of `n`, least significant first, with explicit fuel so
that the definition is structural. -/
def toDigitsRev (fuel n : Nat) : List Char :=
  match fuel with
  | 0 => []
  | f + 1 =>
    if n < 10 then [Nat.digitChar n]
    else Nat.digitChar (n % 10) :: toDigitsRev f (n / 10)

/-- Decimal representation of `n`, most significant digit first. -/
def natChars (n : Nat) : List Char := (toDigitsRev (n + 1) n).reverse

/-- Value of a big-endian digit run, as the parser accumulates it. -/
def digitsVal (ds : List Char) : Nat :=
  ds.foldl (fun a c => 10 * a + (c.toNat - 48)) 0

/-- Value of a little-endian digit run. -/
def digitsValRev (ds : List Char) : Nat :=
  ds.foldr (fun c a => 10 * a + (c.toNat - 48)) 0

mutual

/-- Character-level JSON encoding of a value (`JSON.stringify`). -/
def encodeChars : Json → List Char
  | .jnull => ['n', 'u', 'l', 'l']
  | .jbool true => ['t', 'r', 'u', 'e']
  | .jbool false => ['f', 'a', 'l', 's', 'e']
  | .jnum n => natChars n
  | .jstr s => '"' :: (escapeChars s.data ++ ['"'])
  | .jarr [] => ['[', ']']
  | .jarr (x :: xs) => '[' :: (encodeChars x ++ encodeArrTail xs)
  | .jobj [] => ['\x7b', '\x7d']
  | .jobj (f :: fs) => '\x7b' :: (encodeField f ++ encodeObjTail fs)

/-- Encoding of the remaining elements of a non-empty array, from the
first comma to the closing bracket. -/
def encodeArrTail : List Json → List Char
  | [] => [']']
  | x :: xs => ',' :: (encodeChars x ++ encodeArrTail xs)

/-- Encoding of one object field: quoted key, colon, value. -/
def encodeField : String × Json → List Char
  | (k, v) => '"' :: (escapeChars k.data ++ ['"', ':'] ++ encodeChars v)

/-- Encoding of the remaining fields of a non-empty object, from the first
comma to the closing brace. -/
def encodeObjTail : List (String × Json) → List Char
  | [] => ['\x7d']
  | f :: fs => ',' :: (encodeField f ++ encodeObjTail fs)

end

/-- Parse the body of a JSON string after its opening quote, undoing the
escaping, and return the string contents together with the input following
the closing quote. -/
def parseStringBody : List Char → Option (List Char × List Char)
  | [] => none
  | c :: rest =>
    if c = '\\' then
      match rest with
      | [] => none
      | c2 :: rest2 =>
        match parseStringBody rest2 with
        | some (s, r) => some (c2 :: s, r)
        | none => none
    else if c = '"' then some ([], rest)
    else
      match parseStringBody rest with
      | some (s, r) => some (c :: s, r)
      | none => none

/-- One step of the value parser, with the sub-parsers for nested values,
array tails and object tails passed as arguments. -/
def parseValStep (pv : List Char → Option (Json × List Char))
    (pat : List Char → Option (List Json × List Char))
    (pot : List Char → Option (List (String × Json) × List Char))
    (cs : List Char) : Option (Json × List Char) :=
  match cs with
  | [] => none
  | c :: r =>
    if c = 'n' then
      match r with
      | 'u' :: 'l' :: 'l' :: r2 => some (.jnull, r2)
      | _ => none
    else if c = 't' then
      match r with
      | 'r' :: 'u' :: 'e' :: r2 => some (.jbool true, r2)
      | _ => none
    else if c = 'f' then
      match r with
      | 'a' :: 'l' :: 's' :: 'e' :: r2 => some (.jbool false, r2)
      | _ => none
    else if c = '"' then
      match parseStringBody r with
      | some (s, r2) => some (.jstr ⟨s⟩, r2)
      | none => none
    else if c = '[' then
      match r with
      | [] => none
      | c2 :: r2 =>
        if c2 = ']' then some (.jarr [], r2)
        else
          match pv (c2 :: r2) with
          | some (x, r3) =>
            match pat r3 with
            | some (xs, r4) => some (.jarr (x :: xs), r4)
            | none => none
          | none => none
    else if c = '\x7b' then
      match r with
      | [] => none
      | c2 :: r2 =>
        if c2 = '\x7d' then some (.jobj [], r2)
        else if c2 = '"' then
          match parseStringBody r2 with
          | some (k, r3) =>
            match r3 with
            | ':' :: r4 =>
              match pv r4 with
              | some (v1, r5) =>
                match pot r5 with
                | some (fs, r6) => some (.jobj ((⟨k⟩, v1) :: fs), r6)
                | none => none
              | none => none
            | _ => none
          | none => none
        else none
    else if c.isDigit then
      some (.jnum (digitsVal (List.takeWhile Char.isDigit (c :: r))),
            List.dropWhile Char.isDigit (c :: r))
    else none

/-- One step of the array-tail parser: a comma and a value, repeatedly,
until the closing bracket. -/
def parseArrTailStep (pv : List Char → Option (Json × List Char))
    (pat : List Char → Option (List Json × List Char))
    (cs : List Char) : Option (List Json × List Char) :=
  match cs with
  | [] => none
  | c :: r =>
    if c = ']' then some ([], r)
    else if c = ',' then
      match pv r with
      | some (x, r1) =>
        match pat r1 with
        | some (xs, r2) => some (x :: xs, r2)
        | none => none
      | none => none
    else none

/-- One step of the object-tail parser: a comma and a quoted-key/value
pair, repeatedly, until the closing brace. -/
def parseObjTailStep (pv : List Char → Option (Json × List Char))
    (pot : List Char → Option (List (String × Json) × List Char))
    (cs : List Char) : Option (List (String × Json) × List Char) :=
  match cs with
  | [] => none
  | c :: r =>
    if c = '\x7d' then some ([], r)
    else if c = ',' then
      match r with
      | [] => none
      | c2 :: r2 =>
        if c2 = '"' then
          match parseStringBody r2 with
          | some (k, r3) =>
            match r3 with
            | ':' :: r4 =>
              match pv r4 with
              | some (v1, r5) =>
                match pot r5 with
                | some (fs, r6) => some ((⟨k⟩, v1) :: fs, r6)
                | none => none
              | none => none
            | _ => none
          | none => none
        else none
    else none

mutual

/-- Parse one JSON value at the head of the input, returning it with the
unconsumed remainder (`JSON.parse`, fuelled). -/
def parseVal : Nat → List Char → Option (Json × List Char)
  | 0, _ => none
  | fuel + 1, cs =>
    parseValStep (parseVal fuel) (parseArrTail fuel) (parseObjTail fuel) cs

/-- Parse the elements of an array after its first element. -/
def parseArrTail : Nat → List Char → Option (List Json × List Char)
  | 0, _ => none
  | fuel + 1, cs => parseArrTailStep (parseVal fuel) (parseArrTail fuel) cs

/-- Parse the fields of an object after its first field. -/
def parseObjTail : Nat → List Char → Option (List (String × Json) × List Char)
  | 0, _ => none
  | fuel + 1, cs => parseObjTailStep (parseVal fuel) (parseObjTail fuel) cs

end

/-- Property-style field lookup on a parsed value: `obj.key`, `undefined`
(here `none`) on non-objects or missing keys. -/
def lookupField : List (String × Json) → String → Option Json
  | [], _ => none
  | (k, v) :: rest, key => if k = key then some v else lookupField rest key

/-- `j.key` for a parsed JSON value. -/
def jsonLookup (j : Json) (key : String) : Option Json :=
  match j with
  | .jobj fields => lookupField fields key
  | _ => none

/-- `JSON.stringify` at the `String` level. -/
def encodeJson (v : Json) : String := ⟨encodeChars v⟩

/-- `JSON.parse` at the `String` level: the whole input must be consumed. -/
def parseJson (s : String) : Option Json :=
  match parseVal (s.data.length + 1) s.data with
  | some (v, []) => some v
  | _ => none

/-! ## The `localStorage` caches

`localStorage` is a string-keyed map of strings; `setItem` replaces the
value under one key and leaves every other key unchanged. -/

/-- `localStorage.setItem(key, val)`. -/
def setItem (key val : String) (store : String → Option String) :
    String → Option String :=
  fun k => if k = key then some val else store k

/-- An empty `localStorage`. -/
def emptyStore : String → Option String := fun _ => none

/-- The shared cache key of `publications-cache.js` and the inline copy. -/
def PUBLICATIONS_CACHE_KEY : String := "publications_cache_v1"

/-- `savePublicationsToCache(data)` (identical in `publications-cache.js`
and the inline copy): one `setItem` of the JSON encoding of
`(data, timestamp: Date.now())` under the fixed key. -/
def savePublicationsToCache (data : Json) (now : Nat)
    (store : String → Option String) : String → Option String :=
  setItem PUBLICATIONS_CACHE_KEY
    (encodeJson (.jobj [("data", data), ("timestamp", .jnum now)])) store

/-- `getPublicationsFromCache()` of the inline copy: parse the stored
string and return the whole `(data, timestamp)` object, or `null`. -/
def getPublicationsFromCacheInline (store : String → Option String) :
    Option Json :=
  match store PUBLICATIONS_CACHE_KEY with
  | none => none
  | some s => parseJson s

/-- `getPublicationsFromCache()` of the `publications-cache.js` module:
parse the stored string and return only its `data` field. -/
def getPublicationsFromCacheModule (store : String → Option String) :
    Option Json :=
  match store PUBLICATIONS_CACHE_KEY with
  | none => none
  | some s =>
    match parseJson s with
    | some j => jsonLookup j "data"
    | none => none

/-- The cache key `inspire-publications-{authorId}` used by
`PublicationsFetcher.saveToCache`, `InspirePublications.saveCachedData`
and `PublicationsDisplay`. -/
def fetcherCacheKey (authorId : String) : String :=
  "inspire-publications-" ++ authorId

/-- The cache key `inspire-author-{authorId}` of
`InspirePublications.saveCachedData`. -/
def inspireAuthorKey (authorId : String) : String :=
  "inspire-author-" ++ authorId

/-- The cache key `inspire-last-updated-{authorId}` of
`InspirePublications.saveCachedData`. -/
def inspireLastUpdatedKey (authorId : String) : String :=
  "inspire-last-updated-" ++ authorId

/-- `PublicationsFetcher.saveToCache()`: one `setItem` of the JSON
encoding of `(data: this.cache, timestamp: Date.now())` under
`inspire-publications-{authorId}`. -/
def saveToCache (authorId : String) (cacheData : Json) (now : Nat)
    (store : String → Option String) : String → Option String :=
  setItem (fetcherCacheKey authorId)
    (encodeJson (.jobj [("data", cacheData), ("timestamp", .jnum now)])) store

/-- `InspirePublications.saveCachedData()`: write the raw publications
response and the raw author response under their own keys (when present),
then `Date.now().toString()` under the last-updated key. -/
def saveCachedData (authorId : String)
    (publicationsData authorData : Option Json) (now : Nat)
    (store : String → Option String) : String → Option String :=
  let s1 := match publicationsData with
    | some d => setItem (fetcherCacheKey authorId) (encodeJson d) store
    | none => store
  let s2 := match authorData with
    | some d => setItem (inspireAuthorKey authorId) (encodeJson d) s1
    | none => s1
  setItem (inspireLastUpdatedKey authorId) (String.mk (natChars now)) s2

/-! ## The initialization cycles, as event traces

The three cycle variants are modelled as functions from the cache state
and the network outcome to the sequence of externally visible events:
network requests (a `fetchData`/`fetchAndDisplayData` round is one
request event), renders of the publication list plus statistics panel, and
error-indicator displays.  A failing network (`none`) makes the fetch
round throw, which the source catches. -/

/-- An externally visible event of one initialization run. -/
inductive UIEvent where
  | netRequest
  | render (pubs : List Publication) (stats : StatsPanel)
  | showErrorMsg
deriving DecidableEq, Repr

/-- `this.cacheExpiry = 86400000` (24 hours in milliseconds). -/
def cacheExpiry : Nat := 86400000

/-- `PublicationsFetcher.init()` (Version2): render from cache when
`loadFromCache` succeeds, then fetch only when the entry is older than
`cacheExpiry`; without a cache, fetch and render, and on a fetch error
catch it and show the error message (this variant has no fallback
dataset). -/
def fetcherInitTrace (cache : Option (CombinedData × Nat)) (now : Nat)
    (net : Option CombinedData) : List UIEvent :=
  match cache with
  | some (data, ts) =>
    UIEvent.render data.publications (fetcherStats data) ::
    (if cacheExpiry < now - ts then
      match net with
      | some fresh =>
        [UIEvent.netRequest,
         UIEvent.render fresh.publications (fetcherStats fresh)]
      | none => [UIEvent.netRequest, UIEvent.showErrorMsg]
    else [])
  | none =>
    match net with
    | some fresh =>
      [UIEvent.netRequest,
       UIEvent.render fresh.publications (fetcherStats fresh)]
    | none => [UIEvent.netRequest, UIEvent.showErrorMsg]

/-- The data `InspirePublications` keeps: the publication list of the
literature response and the citation summary of the author response. -/
structure InspireData where
  pubs : List Publication
  summary : Option CitationSummary
deriving DecidableEq, Repr

/-- `InspirePublications.init()`: render cached data first when both cache
entries exist, then `fetchAndDisplayData()`; on success render fresh data;
on failure with cached data keep showing it; on failure without any data
load the hardcoded fallback dataset and render it. -/
def inspireInitTrace (cache : Option InspireData) (net : Option InspireData) :
    List UIEvent :=
  (match cache with
   | some c => [UIEvent.render c.pubs (inspireStats c.pubs c.summary)]
   | none => []) ++
  UIEvent.netRequest ::
  (match net with
   | some fresh =>
     [UIEvent.render fresh.pubs (inspireStats fresh.pubs fresh.summary)]
   | none =>
     match cache with
     | some _ => []
     | none =>
       [UIEvent.render fallbackPublications
         (inspireStats fallbackPublications (some fallbackSummary))])

/-- `PublicationsDisplay.init()`: hide the loading state, render the
cached entry if one exists (its timestamp is never read) or the hardcoded
fallback dataset otherwise, then always start the background fetch (inside
`setTimeout`, after the first render); a background outcome never changes
the UI when no manual refresh was requested. -/
def displayInitTrace (cache : Option (CombinedData × Nat)) : List UIEvent :=
  (match cache with
   | some (data, _) => UIEvent.render data.publications (fetcherStats data)
   | none =>
     UIEvent.render fallbackPublications
       (fetcherStats ⟨fallbackPublications, some fallbackSummary⟩)) ::
  [UIEvent.netRequest]

/-- The content on the page after a trace: the last rendered list and
statistics panel, if any render happened. -/
def lastRender (tr : List UIEvent) : Option (List Publication × StatsPanel) :=
  tr.foldl
    (fun acc e =>
      match e with
      | UIEvent.render p s => some (p, s)
      | _ => acc)
    none


/-! ## Supporting lemmas and the claims -/

theorem hLoop_le (s : List Nat) (i : Nat) : hLoop s i ≤ i + s.length := by
  induction s generalizing i with
  | nil => simp [hLoop]
  | cons c rest ih =>
    simp only [hLoop, List.length_cons]
    split
    · exact le_trans (ih (i + 1)) (by omega)
    · omega

theorem le_hLoop (s : List Nat) (i : Nat) : i ≤ hLoop s i := by
  induction s generalizing i with
  | nil => simp [hLoop]
  | cons c rest ih =>
    simp only [hLoop]
    split
    · exact le_trans (Nat.le_succ i) (ih (i + 1))
    · exact le_refl i

theorem hLoop_get (s : List Nat) (i j : Nat) (hij : i ≤ j)
    (hj : j < hLoop s i) : j + 1 ≤ s.getD (j - i) 0 := by
  induction s generalizing i with
  | nil => simp [hLoop] at hj; omega
  | cons c rest ih =>
    simp only [hLoop] at hj
    split at hj
    · rcases Nat.eq_or_lt_of_le hij with heq | hlt
      · subst heq
        simpa using ‹i + 1 ≤ c›
      · have h1 : i + 1 ≤ j := hlt
        have := ih (i + 1) h1 hj
        have harith : j - i = (j - (i + 1)) + 1 := by omega
        rw [harith]
        simpa using this
    · omega

theorem hLoop_break (s : List Nat) (i : Nat)
    (h : hLoop s i - i < s.length) :
    s.getD (hLoop s i - i) 0 < hLoop s i + 1 := by
  induction s generalizing i with
  | nil => simp at h
  | cons c rest ih =>
    simp only [hLoop] at h ⊢
    split at h
    · rename_i hc
      rw [if_pos hc] at *
      have hge : i + 1 ≤ hLoop rest (i + 1) := le_hLoop rest (i + 1)
      have harith : hLoop rest (i + 1) - i = (hLoop rest (i + 1) - (i + 1)) + 1 := by
        omega
      rw [harith]
      simp only [List.getD_cons_succ]
      have h' : hLoop rest (i + 1) - (i + 1) < rest.length := by
        simp only [List.length_cons] at h
        omega
      exact ih (i + 1) h'
    · rename_i hc
      rw [if_neg hc] at *
      simp only [Nat.sub_self, List.getD_cons_zero]
      omega

/-- Sorted (descending) lists are antitone in the index, `getD` form. -/
theorem sorted_getD_le (s : List Nat) (hs : List.Sorted (· ≥ ·) s)
    (a b : Nat) (hab : a ≤ b) (hb : b < s.length) :
    s.getD b 0 ≤ s.getD a 0 := by
  have ha : a < s.length := lt_of_le_of_lt hab hb
  rw [List.getD_eq_getElem s 0 ha, List.getD_eq_getElem s 0 hb]
  rcases Nat.eq_or_lt_of_le hab with heq | hlt
  · subst heq; exact le_refl _
  · exact hs.rel_get_of_lt (by simpa using hlt)

theorem sortDesc_sorted (l : List Nat) : List.Sorted (· ≥ ·) (sortDesc l) :=
  List.sorted_insertionSort (· ≥ ·) l

theorem sortDesc_perm (l : List Nat) : (sortDesc l).Perm l :=
  List.perm_insertionSort (· ≥ ·) l

theorem sortDesc_length (l : List Nat) : (sortDesc l).length = l.length :=
  (sortDesc_perm l).length_eq

theorem foldl_add_eq_sum {α : Type} (f : α → Nat) (l : List α) (init : Nat) :
    l.foldl (fun acc x => acc + f x) init = init + (l.map f).sum := by
  induction l generalizing init with
  | nil => simp
  | cons x xs ih =>
    simp only [List.foldl_cons, List.map_cons, List.sum_cons, ih]
    omega

/-! ### Lemmas about the JSON codec -/

theorem digitChar_isDigit (d : Nat) (hd : d < 10) :
    (Nat.digitChar d).isDigit = true := by
  interval_cases d <;> decide

theorem digitChar_val (d : Nat) (hd : d < 10) :
    (Nat.digitChar d).toNat - 48 = d := by
  interval_cases d <;> decide

theorem toDigitsRev_spec (fuel : Nat) :
    ∀ n, n < fuel →
      toDigitsRev fuel n ≠ [] ∧
      (∀ c ∈ toDigitsRev fuel n, c.isDigit = true) ∧
      digitsValRev (toDigitsRev fuel n) = n := by
  induction fuel with
  | zero => intro n h; omega
  | succ f ih =>
    intro n h
    by_cases h10 : n < 10
    · refine ⟨by simp [toDigitsRev, h10], ?_, ?_⟩
      · intro c hc
        simp [toDigitsRev, h10] at hc
        subst hc
        exact digitChar_isDigit n h10
      · simp only [toDigitsRev, if_pos h10, digitsValRev, List.foldr_cons,
          List.foldr_nil, Nat.mul_zero, Nat.zero_add]
        exact digitChar_val n h10
    · have hdiv : n / 10 < f := by
        have h1 : n / 10 < n := Nat.div_lt_self (by omega) (by omega)
        omega
      obtain ⟨hne, hdig, hval⟩ := ih (n / 10) hdiv
      refine ⟨by simp [toDigitsRev, h10], ?_, ?_⟩
      · intro c hc
        simp only [toDigitsRev, if_neg h10] at hc
        rcases List.mem_cons.mp hc with hc | hc
        · subst hc
          exact digitChar_isDigit _ (Nat.mod_lt _ (by omega))
        · exact hdig c hc
      · simp only [toDigitsRev, if_neg h10, digitsValRev, List.foldr_cons]
        have : List.foldr (fun c a => 10 * a + (c.toNat - 48)) 0
            (toDigitsRev f (n / 10)) = n / 10 := hval
        rw [this, digitChar_val _ (Nat.mod_lt _ (by omega))]
        omega

theorem natChars_ne_nil (n : Nat) : natChars n ≠ [] := by
  have h := (toDigitsRev_spec (n + 1) n (by omega)).1
  simp only [natChars, Ne, List.reverse_eq_nil_iff]
  exact h

theorem natChars_digits (n : Nat) : ∀ c ∈ natChars n, c.isDigit = true := by
  intro c hc
  exact (toDigitsRev_spec (n + 1) n (by omega)).2.1 c (List.mem_reverse.mp hc)

theorem digitsVal_reverse (ds : List Char) :
    digitsVal ds.reverse = digitsValRev ds := by
  simp [digitsVal, digitsValRev, List.foldl_reverse]

theorem digitsVal_natChars (n : Nat) : digitsVal (natChars n) = n := by
  rw [natChars, digitsVal_reverse]
  exact (toDigitsRev_spec (n + 1) n (by omega)).2.2

theorem isDigit_excl (c : Char) (h : c.isDigit = true) :
    c ≠ 'n' ∧ c ≠ 't' ∧ c ≠ 'f' ∧ c ≠ '"' ∧ c ≠ '[' ∧ c ≠ '\x7b' ∧
    c ≠ ']' ∧ c ≠ ',' ∧ c ≠ '\x7d' := by
  refine ⟨?_, ?_, ?_, ?_, ?_, ?_, ?_, ?_, ?_⟩ <;>
    · rintro rfl
      exact absurd h (by decide)

theorem digits_scan_append (n : Nat) (rest : List Char)
    (hrest : ∀ c, rest.head? = some c → c.isDigit = false) :
    List.takeWhile Char.isDigit (natChars n ++ rest) = natChars n ∧
    List.dropWhile Char.isDigit (natChars n ++ rest) = rest := by
  have hall : List.takeWhile Char.isDigit (natChars n) = natChars n :=
    List.takeWhile_eq_self_iff.mpr (natChars_digits n)
  have hdrop : List.dropWhile Char.isDigit (natChars n) = [] :=
    List.dropWhile_eq_nil_iff.mpr (natChars_digits n)
  have htake_rest : List.takeWhile Char.isDigit rest = [] := by
    cases rest with
    | nil => rfl
    | cons c cr =>
      have := hrest c rfl
      simp [List.takeWhile, this]
  have hdrop_rest : List.dropWhile Char.isDigit rest = rest := by
    cases rest with
    | nil => rfl
    | cons c cr =>
      have := hrest c rfl
      simp [List.dropWhile, this]
  constructor
  · rw [List.takeWhile_append, if_pos (by rw [hall]), htake_rest,
      List.append_nil]
  · rw [List.dropWhile_append, if_pos (by rw [hdrop]; rfl), hdrop_rest]

theorem encodeArrTail_head_not_digit (xs : List Json) (rest : List Char) :
    ∀ c, (encodeArrTail xs ++ rest).head? = some c → c.isDigit = false := by
  cases xs <;>
    · intro c hc
      simp only [encodeArrTail, List.cons_append, List.head?_cons,
        Option.some.injEq] at hc
      subst hc
      decide

theorem encodeObjTail_head_not_digit (fs : List (String × Json))
    (rest : List Char) :
    ∀ c, (encodeObjTail fs ++ rest).head? = some c → c.isDigit = false := by
  cases fs <;>
    · intro c hc
      simp only [encodeObjTail, List.cons_append, List.head?_cons,
        Option.some.injEq] at hc
      subst hc
      decide

theorem encodeChars_head (v : Json) :
    ∃ c tl, encodeChars v = c :: tl ∧ c ≠ ']' := by
  cases v with
  | jnull => exact ⟨'n', _, rfl, by decide⟩
  | jbool b =>
    cases b with
    | false => exact ⟨'f', _, rfl, by decide⟩
    | true => exact ⟨'t', _, rfl, by decide⟩
  | jnum n =>
    cases hnc : natChars n with
    | nil => exact absurd hnc (natChars_ne_nil n)
    | cons c tl =>
      refine ⟨c, tl, hnc, ?_⟩
      have hd : c.isDigit = true :=
        natChars_digits n c (by rw [hnc]; exact List.mem_cons_self _ _)
      exact (isDigit_excl c hd).2.2.2.2.2.2.1
  | jstr s => exact ⟨'"', _, rfl, by decide⟩
  | jarr elems =>
    cases elems with
    | nil => exact ⟨'[', _, rfl, by decide⟩
    | cons x xs => exact ⟨'[', _, rfl, by decide⟩
  | jobj fields =>
    cases fields with
    | nil => exact ⟨'\x7b', _, rfl, by decide⟩
    | cons f fs => exact ⟨'\x7b', _, rfl, by decide⟩

theorem encodeChars_length_pos (v : Json) : 1 ≤ (encodeChars v).length := by
  obtain ⟨c, tl, h, _⟩ := encodeChars_head v
  simp [h]

theorem encodeArrTail_length_pos (xs : List Json) :
    1 ≤ (encodeArrTail xs).length := by
  cases xs <;> simp [encodeArrTail]

theorem encodeObjTail_length_pos (fs : List (String × Json)) :
    1 ≤ (encodeObjTail fs).length := by
  cases fs <;> simp [encodeObjTail]

theorem parseStringBody_round (s rest : List Char) :
    parseStringBody (escapeChars s ++ '"' :: rest) = some (s, rest) := by
  induction s with
  | nil =>
    show parseStringBody ('"' :: rest) = some ([], rest)
    rw [parseStringBody.eq_def]
    rfl
  | cons c cs ih =>
    by_cases hc : c = '"' ∨ c = '\\'
    · simp only [escapeChars, if_pos hc, List.cons_append]
      rw [parseStringBody.eq_def]
      show (match parseStringBody (escapeChars cs ++ '"' :: rest) with
            | some (s, r) => some (c :: s, r)
            | none => none) = some (c :: cs, rest)
      rw [ih]
    · push_neg at hc
      obtain ⟨h1, h2⟩ := hc
      simp only [escapeChars, if_neg (by tauto : ¬(c = '"' ∨ c = '\\')),
        List.cons_append]
      rw [parseStringBody.eq_def]
      simp only [if_neg h2, if_neg h1]
      rw [ih]

theorem parseVal_succ (f : Nat) (cs : List Char) :
    parseVal (f + 1) cs
      = parseValStep (parseVal f) (parseArrTail f) (parseObjTail f) cs := by
  rw [parseVal]

theorem parseArrTail_succ (f : Nat) (cs : List Char) :
    parseArrTail (f + 1) cs
      = parseArrTailStep (parseVal f) (parseArrTail f) cs := by
  rw [parseArrTail]

theorem parseObjTail_succ (f : Nat) (cs : List Char) :
    parseObjTail (f + 1) cs
      = parseObjTailStep (parseVal f) (parseObjTail f) cs := by
  rw [parseObjTail]

/-- The parser is a left inverse of the encoder: with enough fuel, parsing
an encoded value at the head of the input returns exactly that value and
the unconsumed remainder (for a top-level number the remainder must not
start with a digit, as in any JSON framing the encoder produces). -/
theorem parse_encode (fuel : Nat) :
    (∀ v rest, (encodeChars v).length < fuel →
      (∀ c, rest.head? = some c → c.isDigit = false) →
      parseVal fuel (encodeChars v ++ rest) = some (v, rest)) ∧
    (∀ xs rest, (encodeArrTail xs).length ≤ fuel →
      parseArrTail fuel (encodeArrTail xs ++ rest) = some (xs, rest)) ∧
    (∀ fs rest, (encodeObjTail fs).length ≤ fuel →
      parseObjTail fuel (encodeObjTail fs ++ rest) = some (fs, rest)) := by
  induction fuel with
  | zero =>
    refine ⟨fun v rest h _ => absurd h (by omega),
      fun xs rest h => absurd h ?_, fun fs rest h => absurd h ?_⟩
    · have := encodeArrTail_length_pos xs
      omega
    · have := encodeObjTail_length_pos fs
      omega
  | succ f ih =>
    obtain ⟨ihA, ihB, ihC⟩ := ih
    refine ⟨?_, ?_, ?_⟩
    · intro v rest hlen hrest
      cases v with
      | jnull =>
        rw [show encodeChars .jnull = ['n', 'u', 'l', 'l'] from rfl,
          parseVal_succ]
        rfl
      | jbool b =>
        cases b with
        | false =>
          rw [show encodeChars (.jbool false) = ['f', 'a', 'l', 's', 'e']
              from rfl, parseVal_succ]
          rfl
        | true =>
          rw [show encodeChars (.jbool true) = ['t', 'r', 'u', 'e'] from rfl,
            parseVal_succ]
          rfl
      | jnum n =>
        obtain ⟨c, tl, hnc⟩ : ∃ c tl, natChars n = c :: tl := by
          cases h : natChars n with
          | nil => exact absurd h (natChars_ne_nil n)
          | cons c tl => exact ⟨c, tl, rfl⟩
        have hcd : c.isDigit = true :=
          natChars_digits n c (by rw [hnc]; exact List.mem_cons_self _ _)
        obtain ⟨hn, ht, hf2, hq, hlb, hbrace, _, _, _⟩ := isDigit_excl c hcd
        rw [show encodeChars (.jnum n) = natChars n from rfl, hnc,
          List.cons_append, parseVal_succ, parseValStep.eq_def]
        simp only []
        rw [if_neg hn, if_neg ht, if_neg hf2, if_neg hq, if_neg hlb,
          if_neg hbrace, if_pos hcd, ← List.cons_append, ← hnc]
        obtain ⟨htake, hdrop⟩ := digits_scan_append n rest hrest
        rw [htake, hdrop, digitsVal_natChars]
      | jstr s =>
        rw [show encodeChars (.jstr s) = '"' :: (escapeChars s.data ++ ['"'])
            from by rw [encodeChars]]
        simp only [List.cons_append, List.append_assoc,
          List.singleton_append]
        rw [parseVal_succ]
        show (match parseStringBody (escapeChars s.data ++ '"' :: rest) with
              | some (s2, r2) => some (Json.jstr ⟨s2⟩, r2)
              | none => none) = some (.jstr s, rest)
        rw [parseStringBody_round]
      | jarr elems =>
        cases elems with
        | nil =>
          rw [show encodeChars (.jarr []) = ['[', ']'] from by
              rw [encodeChars], parseVal_succ]
          rfl
        | cons x xs =>
          have hshape : encodeChars (.jarr (x :: xs))
              = '[' :: (encodeChars x ++ encodeArrTail xs) := by
            rw [encodeChars]
          have hlen' : (encodeChars x).length + (encodeArrTail xs).length
              < f + 1 := by
            rw [hshape] at hlen
            simp [List.length_append] at hlen
            omega
          have hlenx : (encodeChars x).length < f := by
            have := encodeArrTail_length_pos xs
            omega
          have hlent : (encodeArrTail xs).length ≤ f := by
            have := encodeChars_length_pos x
            omega
          obtain ⟨cx, tlx, hx, hxne⟩ := encodeChars_head x
          rw [hshape]
          simp only [List.cons_append, List.append_assoc]
          rw [parseVal_succ, hx]
          simp only [List.cons_append]
          show (if cx = ']' then
                  some (Json.jarr [], tlx ++ (encodeArrTail xs ++ rest))
                else
                  match parseVal f (cx :: (tlx ++ (encodeArrTail xs ++ rest)))
                      with
                  | some (x2, r3) =>
                    match parseArrTail f r3 with
                    | some (xs2, r4) => some (Json.jarr (x2 :: xs2), r4)
                    | none => none
                  | none => none)
              = some (.jarr (x :: xs), rest)
          rw [if_neg hxne, ← List.cons_append, ← hx,
            ihA x (encodeArrTail xs ++ rest) hlenx
              (encodeArrTail_head_not_digit xs rest)]
          simp only []
          rw [ihB xs rest hlent]
      | jobj fields =>
        cases fields with
        | nil =>
          rw [show encodeChars (.jobj []) = ['\x7b', '\x7d'] from by
              rw [encodeChars], parseVal_succ]
          rfl
        | cons fkv fs =>
          obtain ⟨k, v1⟩ := fkv
          have hshape : encodeChars (.jobj ((k, v1) :: fs))
              = '\x7b' :: (encodeField (k, v1) ++ encodeObjTail fs) := by
            rw [encodeChars]
          have hfshape : encodeField (k, v1)
              = '"' :: (escapeChars k.data ++ ['"', ':'] ++ encodeChars v1) := by
            rw [encodeField]
          have hflen : (encodeChars v1).length + 3 ≤ (encodeField (k, v1)).length := by
            rw [hfshape]
            simp [List.length_append]
          have hlen' : (encodeField (k, v1)).length + (encodeObjTail fs).length
              < f + 1 := by
            rw [hshape] at hlen
            simp [List.length_append] at hlen
            omega
          have hlenv : (encodeChars v1).length < f := by
            have := encodeObjTail_length_pos fs
            omega
          have hlent : (encodeObjTail fs).length ≤ f := by
            omega
          rw [hshape, hfshape]
          simp only [List.cons_append, List.append_assoc,
            List.singleton_append]
          rw [parseVal_succ]
          show (match parseStringBody (escapeChars k.data
                  ++ '"' :: ':' :: (encodeChars v1 ++ (encodeObjTail fs ++ rest)))
                  with
                | some (k2, r3) =>
                  match r3 with
                  | ':' :: r4 =>
                    match parseVal f r4 with
                    | some (v2, r5) =>
                      match parseObjTail f r5 with
                      | some (fs2, r6) =>
                        some (Json.jobj ((⟨k2⟩, v2) :: fs2), r6)
                      | none => none
                    | none => none
                  | _ => none
                | none => none)
              = some (.jobj ((k, v1) :: fs), rest)
          rw [parseStringBody_round]
          simp only []
          rw [ihA v1 (encodeObjTail fs ++ rest) hlenv
            (encodeObjTail_head_not_digit fs rest)]
          simp only []
          rw [ihC fs rest hlent]
    · intro xs rest hlen
      cases xs with
      | nil =>
        rw [show encodeArrTail [] = [']'] from by rw [encodeArrTail],
          parseArrTail_succ]
        rfl
      | cons y ys =>
        have hshape : encodeArrTail (y :: ys)
            = ',' :: (encodeChars y ++ encodeArrTail ys) := by
          rw [encodeArrTail]
        have hlen' : (encodeChars y).length + (encodeArrTail ys).length ≤ f := by
          rw [hshape] at hlen
          simp [List.length_append] at hlen
          omega
        have hleny : (encodeChars y).length < f := by
          have := encodeArrTail_length_pos ys
          omega
        have hlenys : (encodeArrTail ys).length ≤ f := by
          have := encodeChars_length_pos y
          omega
        rw [hshape]
        simp only [List.cons_append, List.append_assoc]
        rw [parseArrTail_succ]
        show (match parseVal f (encodeChars y ++ (encodeArrTail ys ++ rest))
                with
              | some (x2, r1) =>
                match parseArrTail f r1 with
                | some (xs2, r2) => some (x2 :: xs2, r2)
                | none => none
              | none => none) = some (y :: ys, rest)
        rw [ihA y (encodeArrTail ys ++ rest) hleny
          (encodeArrTail_head_not_digit ys rest)]
        simp only []
        rw [ihB ys rest hlenys]
    · intro fs rest hlen
      cases fs with
      | nil =>
        rw [show encodeObjTail [] = ['\x7d'] from by rw [encodeObjTail],
          parseObjTail_succ]
        rfl
      | cons fkv fs' =>
        obtain ⟨k, v1⟩ := fkv
        have hshape : encodeObjTail ((k, v1) :: fs')
            = ',' :: (encodeField (k, v1) ++ encodeObjTail fs') := by
          rw [encodeObjTail]
        have hfshape : encodeField (k, v1)
            = '"' :: (escapeChars k.data ++ ['"', ':'] ++ encodeChars v1) := by
          rw [encodeField]
        have hflen : (encodeChars v1).length + 3 ≤ (encodeField (k, v1)).length := by
          rw [hfshape]
          simp [List.length_append]
        have hlen' : (encodeField (k, v1)).length + (encodeObjTail fs').length
            ≤ f := by
          rw [hshape] at hlen
          simp [List.length_append] at hlen
          omega
        have hlenv : (encodeChars v1).length < f := by
          have := encodeObjTail_length_pos fs'
          omega
        have hlent : (encodeObjTail fs').length ≤ f := by
          omega
        rw [hshape, hfshape]
        simp only [List.cons_append, List.append_assoc,
          List.singleton_append]
        rw [parseObjTail_succ]
        show (match parseStringBody (escapeChars k.data
                ++ '"' :: ':' :: (encodeChars v1 ++ (encodeObjTail fs' ++ rest)))
                with
              | some (k2, r3) =>
                match r3 with
                | ':' :: r4 =>
                  match parseVal f r4 with
                  | some (v2, r5) =>
                    match parseObjTail f r5 with
                    | some (fs2, r6) => some ((⟨k2⟩, v2) :: fs2, r6)
                    | none => none
                  | none => none
                | _ => none
              | none => none) = some ((k, v1) :: fs', rest)
        rw [parseStringBody_round]
        simp only []
        rw [ihA v1 (encodeObjTail fs' ++ rest) hlenv
          (encodeObjTail_head_not_digit fs' rest)]
        simp only []
        rw [ihC fs' rest hlent]

/-- Round trip at the `String` level: `JSON.parse` recovers exactly what
`JSON.stringify` wrote. -/
theorem parseJson_encodeJson (v : Json) : parseJson (encodeJson v) = some v := by
  have h := (parse_encode ((encodeChars v).length + 1)).1 v []
    (by omega) (by intro c hc; simp at hc)
  rw [List.append_nil] at h
  simp only [parseJson, encodeJson, h]

/-- C1.  `calculateHIndex` returns the largest 1-based rank `i` such that the
`i`-th largest citation count is at least `i` (`Nat.findGreatest` of that
predicate over ranks up to the array length), `0` for an empty array, and `2`
on the citation counts `[13, 5, 2]` of the fallback dataset. -/
theorem calculateHIndex_largest_rank :
    (∀ papers : List Publication,
      calculateHIndex papers =
        Nat.findGreatest
          (fun i => 0 < i ∧ i ≤ (sortDesc (papers.map citationOf)).getD (i - 1) 0)
          papers.length) ∧
    calculateHIndex [] = 0 ∧
    calculateHIndex fallbackPublications = 2 := by
  refine ⟨fun papers => ?_, rfl, by decide⟩
  by_cases hnil : papers = []
  · subst hnil; rfl
  · set s := sortDesc (papers.map citationOf) with hs
    have hslen : s.length = papers.length := by
      rw [hs, sortDesc_length, List.length_map]
    have hsorted : List.Sorted (· ≥ ·) s := sortDesc_sorted _
    have hcalc : calculateHIndex papers = hLoop s 0 := by
      simp [calculateHIndex, hnil, hs]
    rw [hcalc]
    set m := hLoop s 0 with hm
    symm
    rw [Nat.findGreatest_eq_iff]
    refine ⟨?_, ?_, ?_⟩
    · have := hLoop_le s 0
      omega
    · intro hm0
      have hpos : 0 < m := Nat.pos_of_ne_zero hm0
      refine ⟨hpos, ?_⟩
      have := hLoop_get s 0 (m - 1) (Nat.zero_le _) (by omega)
      simpa [Nat.sub_zero, Nat.sub_add_cancel hpos] using this
    · rintro j hmj hjn ⟨hj0, hjge⟩
      have hmlen : m < s.length := by omega
      have hbreak := hLoop_break s 0 (by simpa using hmlen)
      rw [← hm] at hbreak
      simp only [Nat.sub_zero] at hbreak
      have hj1 : j - 1 < s.length := by omega
      have hle : s.getD (j - 1) 0 ≤ s.getD m 0 :=
        sorted_getD_le s hsorted m (j - 1) (by omega) hj1
      omega

/-- C5.  For author lists longer than five, `formatAuthors` yields exactly
the first five (highlighted) names, in order, joined by a comma-space and
followed by the suffix " et al."; for lists of at most five names it yields
all names joined, with nothing appended. -/
theorem formatAuthors_truncation (authors : List AuthorRec) :
    (5 < authors.length →
      formatAuthors authors =
        String.intercalate ", "
          ((authors.take 5).map (fun a => highlightAuthor a.full_name))
          ++ " et al." ∧
      ∃ pre, formatAuthors authors = pre ++ " et al.") ∧
    (authors.length ≤ 5 →
      formatAuthors authors =
        String.intercalate ", "
          (authors.map (fun a => highlightAuthor a.full_name))) := by
  constructor
  · intro h5
    have hne : ¬ authors.length = 0 := by omega
    have heq : formatAuthors authors =
        String.intercalate ", "
          ((authors.take 5).map (fun a => highlightAuthor a.full_name))
          ++ " et al." := by
      simp only [formatAuthors, if_neg hne, if_pos h5]
    exact ⟨heq, _, heq⟩
  · intro h5
    by_cases h0 : authors.length = 0
    · have hnil : authors = [] := List.length_eq_zero.mp h0
      subst hnil; rfl
    · have hlt : ¬ 5 < authors.length := by omega
      simp only [formatAuthors, if_neg h0, if_neg hlt,
        List.take_of_length_le h5]

/-- Witness for C5 at a concrete six-name list. -/
theorem formatAuthors_truncation_witness :
    formatAuthors sixAuthors =
      String.intercalate ", "
        ((sixAuthors.take 5).map (fun a => highlightAuthor a.full_name))
        ++ " et al." :=
  ((formatAuthors_truncation sixAuthors).1 (by decide)).1

/-- C6, counterexample.  A record carrying a DOI (`dois` non-empty) but no
journal title renders, in the inline `createPublicationItem`, with only the
INSPIRE link: the DOI link is omitted even though its source field is
present, refuting "the DOI link is omitted exactly when its source field is
absent". -/
theorem createItemLinks_doi_without_journal :
    doiNoJournalPub.metadata.dois ≠ [] ∧
    createItemLinks doiNoJournalPub = [PubLink.inspire "9999"] := by
  constructor
  · decide
  · rfl

/-- C6, amended.  A record with neither an arXiv eprint nor a DOI renders
with exactly the single INSPIRE link in every variant.  In the three list
variants, the arXiv and DOI links are present exactly when their source
field has a first element.  In the inline `createPublicationItem`, the
arXiv button is present exactly when the first arXiv value is a non-empty
string, and the DOI link exactly when both the first DOI value and the
journal title are truthy. -/
theorem links_omission (p : Publication) :
    (p.metadata.arxiv_eprints = [] → p.metadata.dois = [] →
      listVariantLinks p = [PubLink.inspire p.id] ∧
      createItemLinks p = [PubLink.inspire p.id]) ∧
    (listVariantLinks p).any PubLink.isArxiv
      = (p.metadata.arxiv_eprints.head?).isSome ∧
    (listVariantLinks p).any PubLink.isDoi
      = (p.metadata.dois.head?).isSome ∧
    (createItemLinks p).any PubLink.isArxiv = arxivTruthy p ∧
    (createItemLinks p).any PubLink.isDoi
      = (doiTruthy p && inlineJournalTruthy p) := by
  obtain ⟨pid, m⟩ := p
  obtain ⟨tit, auth, pinfo, cc, arx, ds⟩ := m
  refine ⟨fun harx hds => ?_, ?_, ?_, ?_, ?_⟩
  · simp only at harx hds
    subst harx hds
    exact ⟨rfl, rfl⟩
  · cases arx <;> cases ds <;> rfl
  · cases arx <;> cases ds <;> rfl
  all_goals
    cases arx <;> cases ds <;>
      simp only [createItemLinks, arxivTruthy, doiTruthy, List.head?,
        List.any_append, List.any_cons, List.any_nil, List.append_nil,
        PubLink.isArxiv, PubLink.isDoi, Bool.or_false, Bool.false_or] <;>
      (try split_ifs) <;>
      simp_all [PubLink.isArxiv, PubLink.isDoi]

/-- Witness for C6 (amended) at a record with no arXiv eprint and no
DOI. -/
theorem links_omission_witness :
    listVariantLinks bareLinksPub = [PubLink.inspire "1700000"] ∧
    createItemLinks bareLinksPub = [PubLink.inspire "1700000"] :=
  (links_omission bareLinksPub).1 rfl rfl

/-- C4.  In every variant the displayed publication count is the size of
the (optionally filtered) list.  The inline variant sums per-record
citation counts (missing counts as 0) over the filtered list; the
`PublicationsFetcher` and `InspirePublications` variants display the
externally supplied aggregate `citation_count` (0 when the summary is
absent). -/
theorem stats_totals :
    (∀ papers : List Publication,
      (inlineStats papers).publications = (filterPapers papers).length ∧
      (inlineStats papers).citations
        = ((filterPapers papers).map citationOf).sum) ∧
    (∀ c : CombinedData,
      (fetcherStats c).publications = c.publications.length ∧
      (fetcherStats c).citations
        = (c.citationSummary.map CitationSummary.citation_count).getD 0) ∧
    (∀ (pubs : List Publication) (summary : Option CitationSummary),
      (inspireStats pubs summary).publications = pubs.length ∧
      (inspireStats pubs summary).citations
        = (summary.map CitationSummary.citation_count).getD 0) := by
  refine ⟨fun papers => ⟨rfl, ?_⟩, fun c => ⟨rfl, ?_⟩,
    fun pubs summary => ⟨rfl, rfl⟩⟩
  · show inlineTotalCitations (filterPapers papers) = _
    simpa using foldl_add_eq_sum citationOf (filterPapers papers) 0
  · cases hs : c.citationSummary <;> simp [fetcherStats, hs]

/-- C9.  The inline `renderPublications` filter keeps exactly the records
whose trimmed first title differs from the excluded DESI-quasar title, and
the displayed publication count is the size of the filtered list. -/
theorem filter_excluded_title (papers : List Publication) :
    (∀ p, p ∈ filterPapers papers ↔
      p ∈ papers ∧ trimString (firstTitle p) ≠ excludedTitle) ∧
    (inlineStats papers).publications = (filterPapers papers).length := by
  refine ⟨fun p => ?_, rfl⟩
  simp [filterPapers, List.mem_filter]

/-- C10.  `getCached` of `selected-citations.js` returns `null` when the
entry is absent or when the current time minus the stored timestamp
(missing timestamp read as 0) strictly exceeds 24 hours, and otherwise the
stored value unchanged; an entry with no timestamp is stale whenever the
clock is past `ONE_DAY`. -/
theorem getCached_staleness (now : Int)
    (cache : String → Option SelEntry) (key : String) :
    (cache key = none → getCached now cache key = none) ∧
    (∀ e, cache key = some e → ONE_DAY < now - e.ts.getD 0 →
      getCached now cache key = none) ∧
    (∀ e, cache key = some e → now - e.ts.getD 0 ≤ ONE_DAY →
      getCached now cache key = some e.value) ∧
    (∀ e, cache key = some e → e.ts = none → ONE_DAY < now →
      getCached now cache key = none) := by
  refine ⟨fun h => by simp [getCached, h],
    fun e he hst => by simp [getCached, he, hst],
    fun e he hf => by simp [getCached, he, not_lt.mpr hf],
    fun e he hts hnow => ?_⟩
  have h0 : e.ts.getD 0 = 0 := by rw [hts]; rfl
  simp [getCached, he, h0, hnow]

/-- Witness for C10: a cached entry without a timestamp is reported stale
one millisecond past the 24-hour window. -/
theorem getCached_staleness_witness :
    getCached 86400001 selCacheOne "arxiv:2110.13923" = none :=
  (getCached_staleness 86400001 selCacheOne "arxiv:2110.13923").2.2.2
    { value := 13 } (by decide) rfl (by decide)

/-- C7, counterexample.  In the `publications-cache.js` module, reading
back a saved record returns only the `data` field: the yield of the read
is the bare record, which carries no timestamp component, refuting
"reading it back yields the record together with a timestamp". -/
theorem moduleCache_read_lacks_timestamp :
    getPublicationsFromCacheModule
        (savePublicationsToCache (.jstr "rec") 5 emptyStore)
      = some (.jstr "rec") ∧
    jsonLookup (.jstr "rec") "timestamp" = none := by
  refine ⟨?_, rfl⟩
  have hread : savePublicationsToCache (.jstr "rec") 5 emptyStore
      PUBLICATIONS_CACHE_KEY
      = some (encodeJson (.jobj [("data", .jstr "rec"), ("timestamp", .jnum 5)])) := by
    simp [savePublicationsToCache, setItem]
  simp only [getPublicationsFromCacheModule, hread, parseJson_encodeJson]
  rfl

/-- C7, amended.  Saving a record stores the JSON encoding of the
`(data, timestamp)` pair, with the timestamp equal to the write time and
hence within the write/read bounds.  The inline reader returns that whole
pair, whose `data` field is identical to the record written; the
`publications-cache.js` module reader returns only the written record
itself (no timestamp accompanies its yield). -/
theorem cache_round_trip (store : String → Option String) (data : Json)
    (tW tR : Nat) (h : tW ≤ tR) :
    getPublicationsFromCacheInline (savePublicationsToCache data tW store)
      = some (.jobj [("data", data), ("timestamp", .jnum tW)]) ∧
    jsonLookup (.jobj [("data", data), ("timestamp", .jnum tW)]) "data"
      = some data ∧
    jsonLookup (.jobj [("data", data), ("timestamp", .jnum tW)]) "timestamp"
      = some (.jnum tW) ∧
    getPublicationsFromCacheModule (savePublicationsToCache data tW store)
      = some data ∧
    tW ≤ tW ∧ tW ≤ tR := by
  have hread : savePublicationsToCache data tW store PUBLICATIONS_CACHE_KEY
      = some (encodeJson (.jobj [("data", data), ("timestamp", .jnum tW)])) := by
    simp [savePublicationsToCache, setItem]
  refine ⟨?_, rfl, rfl, ?_, le_refl _, h⟩
  · simp only [getPublicationsFromCacheInline, hread]
    exact parseJson_encodeJson _
  · simp only [getPublicationsFromCacheModule, hread, parseJson_encodeJson]
    rfl

/-- Witness for C7 (amended) at a concrete record and times. -/
theorem cache_round_trip_witness :
    getPublicationsFromCacheInline
        (savePublicationsToCache (.jstr "cachedRecord") 5 emptyStore)
      = some (.jobj [("data", .jstr "cachedRecord"), ("timestamp", .jnum 5)]) :=
  (cache_round_trip emptyStore (.jstr "cachedRecord") 5 7 (by decide)).1

/-- C8, counterexample.  One `InspirePublications.saveCachedData` call
writes three distinct keys (publications, author, last-updated), and the
value stored under the publications key is the raw response, not a
JSON-encoded `(data, timestamp)` object: it has no timestamp field.  This
refutes "every cache save is a single whole-object write of a JSON-encoded
`(data, timestamp)` value under one key". -/
theorem saveCachedData_writes_three_keys :
    (saveCachedData "1908124" (some (.jnum 1)) (some (.jnum 2)) 0 emptyStore
        (fetcherCacheKey "1908124")).isSome = true ∧
    (saveCachedData "1908124" (some (.jnum 1)) (some (.jnum 2)) 0 emptyStore
        (inspireAuthorKey "1908124")).isSome = true ∧
    (saveCachedData "1908124" (some (.jnum 1)) (some (.jnum 2)) 0 emptyStore
        (inspireLastUpdatedKey "1908124")).isSome = true ∧
    fetcherCacheKey "1908124" ≠ inspireAuthorKey "1908124" ∧
    saveCachedData "1908124" (some (.jnum 1)) (some (.jnum 2)) 0 emptyStore
        (fetcherCacheKey "1908124") = some (encodeJson (.jnum 1)) ∧
    jsonLookup (.jnum 1) "timestamp" = none := by
  exact ⟨rfl, rfl, rfl, by decide, rfl, rfl⟩

/-- C8, amended.  `PublicationsFetcher.saveToCache` and
`savePublicationsToCache` each perform a single whole-object write: the
value stored under their one key is the complete JSON encoding of the
`(data, timestamp)` pair, independent of the previous store contents, and
every other key is untouched.  `InspirePublications.saveCachedData`
instead writes up to three keys of the `{namespace}-{authorId}` patterns,
each a whole-value write, and touches no other key. -/
theorem cache_save_atomicity :
    (∀ (authorId : String) (d : Json) (now : Nat)
        (store : String → Option String),
      saveToCache authorId d now store (fetcherCacheKey authorId)
        = some (encodeJson (.jobj [("data", d), ("timestamp", .jnum now)])) ∧
      ∀ k, k ≠ fetcherCacheKey authorId →
        saveToCache authorId d now store k = store k) ∧
    (∀ (data : Json) (now : Nat) (store : String → Option String),
      savePublicationsToCache data now store PUBLICATIONS_CACHE_KEY
        = some (encodeJson (.jobj [("data", data), ("timestamp", .jnum now)])) ∧
      ∀ k, k ≠ PUBLICATIONS_CACHE_KEY →
        savePublicationsToCache data now store k = store k) ∧
    (∀ (authorId : String) (pd ad : Option Json) (now : Nat)
        (store : String → Option String) (k : String),
      k ≠ fetcherCacheKey authorId → k ≠ inspireAuthorKey authorId →
      k ≠ inspireLastUpdatedKey authorId →
      saveCachedData authorId pd ad now store k = store k) := by
  refine ⟨fun a d now store => ⟨?_, fun k hk => ?_⟩,
    fun d now store => ⟨?_, fun k hk => ?_⟩,
    fun a pd ad now store k h1 h2 h3 => ?_⟩
  · simp [saveToCache, setItem]
  · simp [saveToCache, setItem, hk]
  · simp [savePublicationsToCache, setItem]
  · simp [savePublicationsToCache, setItem, hk]
  · cases pd <;> cases ad <;>
      simp [saveCachedData, setItem, h1, h2, h3]

/-- Witness for C8 (amended): a save leaves an unrelated key of an empty
store empty. -/
theorem cache_save_atomicity_witness :
    saveCachedData "1908124" (some (.jnum 1)) (some (.jnum 2)) 7 emptyStore
        "unrelated-key" = none :=
  cache_save_atomicity.2.2 "1908124" (some (.jnum 1)) (some (.jnum 2)) 7
    emptyStore "unrelated-key" (by decide) (by decide) (by decide)

/-- C2, counterexample.  In the `PublicationsFetcher` (Version2) variant,
with no cache entry and a failing network, `init` catches the error and
shows the error message but renders nothing: this variant has no fallback
dataset, so the publication region stays empty, refuting "the cycle
renders the fixed hardcoded fallback dataset". -/
theorem fetcherInit_no_fallback :
    fetcherInitTrace none 0 none
      = [UIEvent.netRequest, UIEvent.showErrorMsg] ∧
    lastRender (fetcherInitTrace none 0 none) = none :=
  ⟨rfl, rfl⟩

/-- C2, amended.  In the `InspirePublications` variant, with no cache and
every network call failing, the cycle catches the error and renders the
hardcoded fallback dataset, whose derived statistics are 3 publications,
20 total citations and h-index 2; moreover on every cache/network outcome
this variant ends with some rendered content (the error is never fatal to
rendering).  The Version2 `PublicationsFetcher` variant also catches the
error but only shows the error indicator, rendering no fallback. -/
theorem inspire_fallback_on_failure :
    inspireInitTrace none none
      = [UIEvent.netRequest,
         UIEvent.render fallbackPublications
           { publications := 3, citations := 20, hIndex := 2 }] ∧
    lastRender (inspireInitTrace none none)
      = some (fallbackPublications,
          { publications := 3, citations := 20, hIndex := 2 }) ∧
    (∀ cache net, (lastRender (inspireInitTrace cache net)).isSome = true) := by
  refine ⟨rfl, rfl, fun cache net => ?_⟩
  cases cache <;> cases net <;> rfl

/-- C3, counterexample.  The `PublicationsDisplay` variant issues its
background network request on every initialization, here with a cache
entry of age 0 (well inside the 24-hour freshness window): the background
refresh is not restricted to stale cache entries. -/
theorem displayInit_always_refreshes :
    (0 : Nat) - 0 ≤ cacheExpiry ∧
    displayInitTrace (some (⟨[], none⟩, 0))
      = [UIEvent.render [] { publications := 0, citations := 0, hIndex := 0 },
         UIEvent.netRequest] ∧
    UIEvent.netRequest ∈ displayInitTrace (some (⟨[], none⟩, 0)) := by
  refine ⟨by decide, rfl, by decide⟩

/-- C3, amended.  With a cache entry younger than 24 hours, both cited
variants render the cached data first and issue no network call before
that first render: the Version2 `PublicationsFetcher` issues no network
call at all (and does fetch whenever the entry is stale), while
`PublicationsDisplay` always issues its background request, but strictly
after the first render. -/
theorem fresh_cache_render_first (data : CombinedData) (ts now : Nat)
    (net : Option CombinedData) (hfresh : now - ts ≤ cacheExpiry) :
    fetcherInitTrace (some (data, ts)) now net
      = [UIEvent.render data.publications (fetcherStats data)] ∧
    (displayInitTrace (some (data, ts))).head?
      = some (UIEvent.render data.publications (fetcherStats data)) ∧
    displayInitTrace (some (data, ts))
      = [UIEvent.render data.publications (fetcherStats data),
         UIEvent.netRequest] ∧
    (∀ now2, cacheExpiry < now2 - ts →
      UIEvent.netRequest ∈ fetcherInitTrace (some (data, ts)) now2 net) := by
  refine ⟨?_, rfl, rfl, fun now2 hstale => ?_⟩
  · simp [fetcherInitTrace, not_lt.mpr hfresh]
  · simp only [fetcherInitTrace, if_pos hstale]
    cases net <;> simp

/-- Witness for C3 (amended) at a concrete fresh cache entry. -/
theorem fresh_cache_render_first_witness :
    fetcherInitTrace (some (⟨[], none⟩, 0)) 0 none
      = [UIEvent.render [] { publications := 0, citations := 0, hIndex := 0 }] :=
  (fresh_cache_render_first ⟨[], none⟩ 0 0 none (by decide)).1

end Portfolio
